import Mathlib

/-!
A verification development for the debug facility of a graph-query result
tree: a recursive sortedness validator (`AssertSorted` / `AssertUidListSorted`)
and a recursive diagnostic dumper (`DebugSubgraph`), embedded shallowly from
the Go source `query/debug.go`.

Go strings are modelled as lists of characters, Go `uint64` identifiers as
`Nat` (the code only compares them, so no wrap-around is involved), nil-able
pointers as `Option` or as an explicit `null` tree constructor, and the fatal
assertion `x.AssertTruef` as an `Except` error carrying the formatted message.
-/

/-- Go strings, modelled as character lists so that concatenation and
prefix reasoning are plain list operations. -/
abbrev GoStr := List Char

/-- Embeds a Lean string literal into the `GoStr` model. -/
def str (s : String) : GoStr := s.data

/-- Decidable equality for `Except`, used to evaluate validator results on
concrete inputs. -/
instance decEqExcept {ε α : Type} [DecidableEq ε] [DecidableEq α] :
    DecidableEq (Except ε α) := fun x y =>
  match x, y with
  | Except.ok a, Except.ok b =>
      if h : a = b then isTrue (by rw [h]) else isFalse (by intro hc; cases hc; exact h rfl)
  | Except.error a, Except.error b =>
      if h : a = b then isTrue (by rw [h]) else isFalse (by intro hc; cases hc; exact h rfl)
  | Except.ok _, Except.error _ => isFalse (by intro hc; cases hc)
  | Except.error _, Except.ok _ => isFalse (by intro hc; cases hc)

/-- The `protos.List` message: a list of uids (`uint64`, modelled as `Nat`
since the code only compares identifiers). -/
structure ProtosList where
  Uids : List Nat
deriving DecidableEq

/-- The nil-safe accessor `(*protos.List).GetUids`: on a nil receiver it
returns the empty slice, otherwise the `Uids` field. -/
def GetUids : Option ProtosList → List Nat
  | none => []
  | some pl => pl.Uids

/-- Go `fmt` rendering of a `[]uint64` slice with the `v` verb: elements
separated by single spaces inside square brackets. -/
def fmtUids (uids : List Nat) : GoStr :=
  str "[" ++ List.intercalate (str " ") (uids.map (fun u => (Nat.repr u).data)) ++ str "]"

/-- Escapes of a single character under Go `fmt` quoting (the `q` verb);
covers the double quote, backslash and common control characters, and leaves
other (printable) characters unchanged. -/
def goQuoteChar (c : Char) : GoStr :=
  if c = '"' then ['\\', '"']
  else if c = '\\' then ['\\', '\\']
  else if c = '\n' then ['\\', 'n']
  else if c = '\t' then ['\\', 't']
  else if c = '\r' then ['\\', 'r']
  else [c]

/-- Go `fmt` quoting of a string (the `q` verb): the escaped characters
wrapped in double quotes. -/
def goQuote (s : GoStr) : GoStr := ['"'] ++ (s.map goQuoteChar).flatten ++ ['"']

/-- The `SubGraph` result-tree reference: either a nil pointer (`null`) or a
node carrying the attribute label, the two identifier-list pointers and the
ordered child references, exactly the fields `query/debug.go` reads. -/
inductive SubGraph : Type where
  | null : SubGraph
  | node (Attr : GoStr) (SrcUIDs DestUIDs : Option ProtosList)
      (Children : List SubGraph) : SubGraph

/-- The loop body of `AssertUidListSorted`: walks adjacent pairs of the uid
list and, at the first pair that is not strictly increasing, fails with the
fatal-assertion message built from the tag and the full list (`full` is the
complete list, kept for the message exactly as the Go loop re-reads
`pl.GetUids()`). -/
def AssertUidListSortedLoop (full : List Nat) (msg : GoStr) : List Nat → Except GoStr Unit
  | a :: b :: rest =>
      if a < b then AssertUidListSortedLoop full msg (b :: rest)
      else Except.error (msg ++ str " list not sorted: " ++ fmtUids full)
  | _ => Except.ok ()

/-- `AssertUidListSorted(pl, msg)`: iterates over adjacent pairs of
`pl.GetUids()` and asserts strict increase, with the message
`msg ++ " list not sorted: " ++ <full list>` on failure. -/
def AssertUidListSorted (pl : Option ProtosList) (msg : GoStr) : Except GoStr Unit :=
  AssertUidListSortedLoop (GetUids pl) msg (GetUids pl)

mutual
/-- `AssertSorted(sg)`: returns immediately on a nil tree, otherwise checks
`SrcUIDs` under the tag `"src uid"`, then `DestUIDs` under `"dest uid"`,
then recurses into the children in order.  A failed assertion halts the
whole pass (modelled by the `Except` short circuit). -/
def AssertSorted : SubGraph → Except GoStr Unit
  | SubGraph.null => Except.ok ()
  | SubGraph.node _ src dest children =>
      match AssertUidListSorted src (str "src uid") with
      | Except.error e => Except.error e
      | Except.ok _ =>
        match AssertUidListSorted dest (str "dest uid") with
        | Except.error e => Except.error e
        | Except.ok _ => AssertSortedChildren children

/-- The `for _, ch := range sg.Children` loop of `AssertSorted`. -/
def AssertSortedChildren : List SubGraph → Except GoStr Unit
  | [] => Except.ok ()
  | c :: cs =>
      match AssertSorted c with
      | Except.error e => Except.error e
      | Except.ok _ => AssertSortedChildren cs
end

/-- Modelled from the spec: the rendering of a source-identifier list pointer
by the dumper (the generated protobuf code for `protos.List`, whose `String`
method the `v` verb would call, is not among the sources); the spec renders
`sourceIds [1,5,9]` as `[1 5 9]`, i.e. like a plain uid slice. -/
def fmtPListPtr (pl : Option ProtosList) : GoStr := fmtUids (GetUids pl)

mutual
/-- `DebugSubgraph(sg, indent)`: emits `indent ++ "Attr=" ++ <quoted label>`,
then `indent ++ "  SrcUids=" ++ <source uid list>`, then for each child in
order a line `indent ++ "  Child=" ++ <index>` followed by the child's dump
at `indent ++ "    "`.  There is no nil check: on a nil tree the first field
read dereferences a nil pointer, modelled as `none` (no well-defined output);
a nil child likewise makes the whole dump undefined. -/
def DebugSubgraph : SubGraph → GoStr → Option (List GoStr)
  | SubGraph.null, _ => none
  | SubGraph.node attr src _ children, indent =>
      match DebugChildren children 0 indent with
      | none => none
      | some rest =>
          some ((indent ++ str "Attr=" ++ goQuote attr)
              :: (indent ++ str "  SrcUids=" ++ fmtPListPtr src) :: rest)

/-- The `for i := range sg.Children` loop of `DebugSubgraph`, carrying the
zero-based child index. -/
def DebugChildren : List SubGraph → Nat → GoStr → Option (List GoStr)
  | [], _, _ => some []
  | c :: cs, i, indent =>
      match DebugSubgraph c (indent ++ str "    ") with
      | none => none
      | some sub =>
          match DebugChildren cs (i + 1) indent with
          | none => none
          | some rest => some (((indent ++ str "  Child=" ++ (Nat.repr i).data) :: sub) ++ rest)
end

/-- Strict increase of adjacent pairs, as a boolean on uid lists. -/
def strictlyIncB : List Nat → Bool
  | a :: b :: rest => decide (a < b) && strictlyIncB (b :: rest)
  | _ => true

/-- An adjacent pair with the earlier element greater than or equal to the
later one (a non-increasing or duplicate pair), stated positionally. -/
def hasNonIncPair (l : List Nat) : Prop :=
  ∃ i, ∃ h : i + 1 < l.length, l.get ⟨i + 1, h⟩ ≤ l.get ⟨i, Nat.lt_of_succ_lt h⟩

/-- A node violating the sortedness contract: one of its two identifier
lists has a non-increasing adjacent pair.  A nil tree violates nothing. -/
def nodeBad : SubGraph → Prop
  | SubGraph.null => False
  | SubGraph.node _ s d _ => hasNonIncPair (GetUids s) ∨ hasNonIncPair (GetUids d)

/-- The reflexive-transitive subtree relation: `Subtree sg t` holds when `t`
is `sg` itself or a subtree of one of its children. -/
inductive Subtree : SubGraph → SubGraph → Prop where
  | refl (sg : SubGraph) : Subtree sg sg
  | child (a : GoStr) (s d : Option ProtosList) (cs : List SubGraph) (c t : SubGraph) :
      c ∈ cs → Subtree c t → Subtree (SubGraph.node a s d cs) t

mutual
/-- A tree within the spec's data model: the reference itself and every
child reference, recursively, is non-nil. -/
def noNull : SubGraph → Bool
  | SubGraph.null => false
  | SubGraph.node _ _ _ cs => noNullList cs

/-- All trees of a child list satisfy `noNull`. -/
def noNullList : List SubGraph → Bool
  | [] => true
  | c :: cs => noNull c && noNullList cs
end

mutual
/-- The dumper's output as the spec prescribes it, line by line: the
`Attr=` line with the quoted label, the `  SrcUids=` line with the full
source list, then per child a `  Child=<index>` line followed by the child's
own lines at four additional spaces of indentation; an absent tree yields no
output. -/
def dumpSpec : SubGraph → GoStr → List GoStr
  | SubGraph.null, _ => []
  | SubGraph.node attr src _ children, indent =>
      (indent ++ str "Attr=" ++ goQuote attr)
      :: (indent ++ str "  SrcUids=" ++ fmtPListPtr src)
      :: dumpSpecChildren children 0 indent

/-- The per-child lines of `dumpSpec`, with the zero-based child index. -/
def dumpSpecChildren : List SubGraph → Nat → GoStr → List GoStr
  | [], _, _ => []
  | c :: cs, i, indent =>
      ((indent ++ str "  Child=" ++ (Nat.repr i).data) :: dumpSpec c (indent ++ str "    "))
      ++ dumpSpecChildren cs (i + 1) indent
end

mutual
/-- Replaces every destination-identifier list in the tree by `none`,
leaving label, source identifiers and child structure untouched.  Two trees
are identical except in their destination lists exactly when they are
equalised by this erasure. -/
def eraseDest : SubGraph → SubGraph
  | SubGraph.null => SubGraph.null
  | SubGraph.node a s _ cs => SubGraph.node a s none (eraseDestList cs)

/-- Pointwise `eraseDest` over a child list. -/
def eraseDestList : List SubGraph → List SubGraph
  | [] => []
  | c :: cs => eraseDest c :: eraseDestList cs
end

mutual
/-- The validator with the traversed tree threaded through as explicit
state: the walk reads fields and reconstructs the node from the post-state
of its children, so the returned tree witnesses that no field was written. -/
def AssertSortedSt : SubGraph → Except GoStr Unit × SubGraph
  | SubGraph.null => (Except.ok (), SubGraph.null)
  | SubGraph.node a s d cs =>
      match AssertUidListSorted s (str "src uid") with
      | Except.error e => (Except.error e, SubGraph.node a s d cs)
      | Except.ok _ =>
        match AssertUidListSorted d (str "dest uid") with
        | Except.error e => (Except.error e, SubGraph.node a s d cs)
        | Except.ok _ =>
            match AssertSortedChildrenSt cs with
            | (r, cs2) => (r, SubGraph.node a s d cs2)

/-- The child loop of `AssertSortedSt`, threading the child list. -/
def AssertSortedChildrenSt : List SubGraph → Except GoStr Unit × List SubGraph
  | [] => (Except.ok (), [])
  | c :: cs =>
      match AssertSortedSt c with
      | (Except.error e, c2) => (Except.error e, c2 :: cs)
      | (Except.ok _, c2) =>
          match AssertSortedChildrenSt cs with
          | (r2, cs2) => (r2, c2 :: cs2)
end

mutual
/-- The dumper with the traversed tree threaded through as explicit state,
analogous to `AssertSortedSt`. -/
def DebugSubgraphSt : SubGraph → GoStr → Option (List GoStr) × SubGraph
  | SubGraph.null, _ => (none, SubGraph.null)
  | SubGraph.node attr src dest children, indent =>
      match DebugChildrenSt children 0 indent with
      | (none, children2) => (none, SubGraph.node attr src dest children2)
      | (some rest, children2) =>
          (some ((indent ++ str "Attr=" ++ goQuote attr)
              :: (indent ++ str "  SrcUids=" ++ fmtPListPtr src) :: rest),
           SubGraph.node attr src dest children2)

/-- The child loop of `DebugSubgraphSt`, threading the child list. -/
def DebugChildrenSt : List SubGraph → Nat → GoStr → Option (List GoStr) × List SubGraph
  | [], _, _ => (some [], [])
  | c :: cs, i, indent =>
      match DebugSubgraphSt c (indent ++ str "    ") with
      | (none, c2) => (none, c2 :: cs)
      | (some sub, c2) =>
          match DebugChildrenSt cs (i + 1) indent with
          | (none, cs2) => (none, c2 :: cs2)
          | (some rest, cs2) =>
              (some (((indent ++ str "  Child=" ++ (Nat.repr i).data) :: sub) ++ rest),
               c2 :: cs2)
end

mutual
/-- Size of a tree counting every reference and every child-list cell; it
bounds the recursion depth of the fuelled traversals below. -/
def sizeN : SubGraph → Nat
  | SubGraph.null => 1
  | SubGraph.node _ _ _ cs => 1 + sizeListN cs

/-- Size of a child list for the fuel bound. -/
def sizeListN : List SubGraph → Nat
  | [] => 1
  | c :: cs => 1 + sizeN c + sizeListN cs
end

mutual
/-- Number of tree references a full walk visits: the reference itself plus,
for a node, every reference reachable through the children. -/
def nodeRefs : SubGraph → Nat
  | SubGraph.null => 1
  | SubGraph.node _ _ _ cs => 1 + nodeRefsList cs

/-- Sum of `nodeRefs` over a child list. -/
def nodeRefsList : List SubGraph → Nat
  | [] => 0
  | c :: cs => nodeRefs c + nodeRefsList cs
end

mutual
/-- The validator instrumented with a counter of the tree references it
actually visits (each `AssertSorted` invocation counts its argument once;
a failed assertion stops the walk exactly as the fatal assertion does). -/
def AssertSortedVisits : SubGraph → Except GoStr Unit × Nat
  | SubGraph.null => (Except.ok (), 1)
  | SubGraph.node _ src dest cs =>
      match AssertUidListSorted src (str "src uid") with
      | Except.error e => (Except.error e, 1)
      | Except.ok _ =>
        match AssertUidListSorted dest (str "dest uid") with
        | Except.error e => (Except.error e, 1)
        | Except.ok _ =>
            match AssertSortedChildrenVisits cs with
            | (r, k) => (r, 1 + k)

/-- The child loop of `AssertSortedVisits`, accumulating visit counts. -/
def AssertSortedChildrenVisits : List SubGraph → Except GoStr Unit × Nat
  | [] => (Except.ok (), 0)
  | c :: cs =>
      match AssertSortedVisits c with
      | (Except.error e, k) => (Except.error e, k)
      | (Except.ok _, k) =>
          match AssertSortedChildrenVisits cs with
          | (r2, k2) => (r2, k + k2)
end

mutual
/-- The validator under an explicit recursion-depth budget: every recursive
step consumes one unit of fuel, and exhausted fuel yields `none`.  Adequate
fuel (any `n` at least `sizeN`) reproduces `AssertSorted` exactly, which is
the termination argument for the recursive walk. -/
def AssertSortedFuel : Nat → SubGraph → Option (Except GoStr Unit)
  | 0, _ => none
  | _ + 1, SubGraph.null => some (Except.ok ())
  | n + 1, SubGraph.node _ src dest cs =>
      match AssertUidListSorted src (str "src uid") with
      | Except.error e => some (Except.error e)
      | Except.ok _ =>
        match AssertUidListSorted dest (str "dest uid") with
        | Except.error e => some (Except.error e)
        | Except.ok _ => AssertSortedChildrenFuel n cs

/-- The child loop of `AssertSortedFuel` under the same fuel discipline. -/
def AssertSortedChildrenFuel : Nat → List SubGraph → Option (Except GoStr Unit)
  | 0, _ => none
  | _ + 1, [] => some (Except.ok ())
  | n + 1, c :: cs =>
      match AssertSortedFuel n c with
      | none => none
      | some (Except.error e) => some (Except.error e)
      | some (Except.ok _) => AssertSortedChildrenFuel n cs
end

mutual
/-- The dumper under an explicit recursion-depth budget, analogous to
`AssertSortedFuel`: the outer `Option` is fuel exhaustion, the inner
`Option (List GoStr)` is the dumper's own result. -/
def DebugSubgraphFuel : Nat → SubGraph → GoStr → Option (Option (List GoStr))
  | 0, _, _ => none
  | _ + 1, SubGraph.null, _ => some none
  | n + 1, SubGraph.node attr src _ children, indent =>
      match DebugChildrenFuel n children 0 indent with
      | none => none
      | some none => some none
      | some (some rest) =>
          some (some ((indent ++ str "Attr=" ++ goQuote attr)
              :: (indent ++ str "  SrcUids=" ++ fmtPListPtr src) :: rest))

/-- The child loop of `DebugSubgraphFuel` under the same fuel discipline. -/
def DebugChildrenFuel : Nat → List SubGraph → Nat → GoStr → Option (Option (List GoStr))
  | 0, _, _, _ => none
  | _ + 1, [], _, _ => some (some [])
  | n + 1, c :: cs, i, indent =>
      match DebugSubgraphFuel n c (indent ++ str "    ") with
      | none => none
      | some none => some none
      | some (some sub) =>
          match DebugChildrenFuel n cs (i + 1) indent with
          | none => none
          | some none => some none
          | some (some rest) =>
              some (some (((indent ++ str "  Child=" ++ (Nat.repr i).data) :: sub) ++ rest))
end

/-- Number of comparisons the `AssertUidListSorted` loop executes on a uid
list: one per iteration reached, stopping after a failed comparison. -/
def AssertUidListSortedLoopComparisons : List Nat → Nat
  | a :: b :: rest =>
      if a < b then 1 + AssertUidListSortedLoopComparisons (b :: rest) else 1
  | _ => 0

/-- Number of uid comparisons `AssertUidListSorted` performs on a list
pointer. -/
def AssertUidListSortedComparisons (pl : Option ProtosList) : Nat :=
  AssertUidListSortedLoopComparisons (GetUids pl)

/-- The spec's example tree: a `forum` node with sourceIds `[1,5,9]` and one
`thread` child with sourceIds `[2,4]` and destIds `[10,11]`. -/
def exTree : SubGraph :=
  SubGraph.node (str "forum") (some ⟨[1, 5, 9]⟩) none
    [SubGraph.node (str "thread") (some ⟨[2, 4]⟩) (some ⟨[10, 11]⟩) []]

/-- The spec's violation example: the same tree with the child's destIds
reversed to `[11,10]`. -/
def exTreeBad : SubGraph :=
  SubGraph.node (str "forum") (some ⟨[1, 5, 9]⟩) none
    [SubGraph.node (str "thread") (some ⟨[2, 4]⟩) (some ⟨[11, 10]⟩) []]

theorem pref_left (l t : GoStr) : l <+: l ++ t := ⟨t, rfl⟩

theorem pref_comparable {l1 l2 l3 : GoStr} (h1 : l1 <+: l3) (h2 : l2 <+: l3) :
    l1 <+: l2 ∨ l2 <+: l1 := by
  obtain ⟨t1, ht1⟩ := h1
  obtain ⟨t2, ht2⟩ := h2
  have h : l1 ++ t1 = l2 ++ t2 := by rw [ht1, ht2]
  rcases List.append_eq_append_iff.mp h with ⟨x, hx, _⟩ | ⟨x, hx, _⟩
  · exact Or.inl ⟨x, hx.symm⟩
  · exact Or.inr ⟨x, hx.symm⟩

theorem pref_cancel (l : GoStr) {a b : GoStr} : (l ++ a <+: l ++ b) ↔ (a <+: b) := by
  constructor
  · rintro ⟨t, ht⟩
    rw [List.append_assoc, List.append_right_inj] at ht
    exact ⟨t, ht⟩
  · rintro ⟨t, rfl⟩
    exact ⟨t, by rw [List.append_assoc]⟩

theorem AssertUidListSortedLoop_ok_iff (full : List Nat) (msg : GoStr) :
    ∀ l, AssertUidListSortedLoop full msg l = Except.ok () ↔ strictlyIncB l = true
  | [] => by simp [AssertUidListSortedLoop, strictlyIncB]
  | [a] => by simp [AssertUidListSortedLoop, strictlyIncB]
  | a :: b :: rest => by
      by_cases hab : a < b
      · rw [AssertUidListSortedLoop, if_pos hab, strictlyIncB,
          AssertUidListSortedLoop_ok_iff full msg (b :: rest)]
        simp [hab]
      · simp [AssertUidListSortedLoop, if_neg hab, strictlyIncB, hab]

theorem AssertUidListSortedLoop_error_msg (full : List Nat) (msg : GoStr) :
    ∀ l e, AssertUidListSortedLoop full msg l = Except.error e →
      e = msg ++ str " list not sorted: " ++ fmtUids full
  | [], e => by simp [AssertUidListSortedLoop]
  | [a], e => by simp [AssertUidListSortedLoop]
  | a :: b :: rest, e => by
      by_cases hab : a < b
      · rw [AssertUidListSortedLoop, if_pos hab]
        exact AssertUidListSortedLoop_error_msg full msg (b :: rest) e
      · rw [AssertUidListSortedLoop, if_neg hab]
        intro h
        cases h
        rfl

theorem AssertUidListSorted_ok_iff (pl : Option ProtosList) (msg : GoStr) :
    AssertUidListSorted pl msg = Except.ok () ↔ strictlyIncB (GetUids pl) = true :=
  AssertUidListSortedLoop_ok_iff (GetUids pl) msg (GetUids pl)

theorem AssertUidListSorted_error_msg (pl : Option ProtosList) (msg e : GoStr)
    (h : AssertUidListSorted pl msg = Except.error e) :
    e = msg ++ str " list not sorted: " ++ fmtUids (GetUids pl) :=
  AssertUidListSortedLoop_error_msg (GetUids pl) msg (GetUids pl) e h

theorem strictlyIncB_iff_chain : ∀ l : List Nat,
    strictlyIncB l = true ↔ List.Chain' (· < ·) l
  | [] => by simp [strictlyIncB]
  | [a] => by simp [strictlyIncB]
  | a :: b :: rest => by
      rw [strictlyIncB, List.chain'_cons, Bool.and_eq_true, decide_eq_true_iff]
      rw [strictlyIncB_iff_chain (b :: rest)]

theorem hasNonIncPair_iff (l : List Nat) :
    hasNonIncPair l ↔ strictlyIncB l = false := by
  rw [← Bool.not_eq_true, strictlyIncB_iff_chain, List.chain'_iff_get]
  constructor
  · rintro ⟨i, h, hle⟩ hall
    have hi : i < l.length - 1 := by omega
    exact absurd (hall i hi) (Nat.not_lt.mpr hle)
  · intro hnot
    push_neg at hnot
    obtain ⟨i, hi, hle⟩ := hnot
    exact ⟨i, by omega, hle⟩

theorem not_hasNonIncPair_iff (l : List Nat) :
    ¬ hasNonIncPair l ↔ strictlyIncB l = true := by
  rw [hasNonIncPair_iff, Bool.not_eq_false]

theorem AssertSortedChildren_ok_iff : ∀ cs : List SubGraph,
    AssertSortedChildren cs = Except.ok () ↔ ∀ c ∈ cs, AssertSorted c = Except.ok ()
  | [] => by simp [AssertSortedChildren]
  | c :: cs => by
      rw [AssertSortedChildren]
      cases h : AssertSorted c with
      | error e => simp [h]
      | ok u =>
        cases u
        rw [AssertSortedChildren_ok_iff cs]
        simp [h]

theorem AssertSorted_node_ok_iff (a : GoStr) (s d : Option ProtosList) (cs : List SubGraph) :
    AssertSorted (SubGraph.node a s d cs) = Except.ok () ↔
      (AssertUidListSorted s (str "src uid") = Except.ok ()
        ∧ AssertUidListSorted d (str "dest uid") = Except.ok ()
        ∧ AssertSortedChildren cs = Except.ok ()) := by
  rw [AssertSorted]
  cases hs : AssertUidListSorted s (str "src uid") with
  | error e => simp [hs]
  | ok u =>
    cases u
    cases hd : AssertUidListSorted d (str "dest uid") with
    | error e => simp [hd]
    | ok v => cases v; simp

theorem subtree_null_iff (t : SubGraph) : Subtree SubGraph.null t ↔ t = SubGraph.null := by
  constructor
  · intro h
    cases h
    rfl
  · rintro rfl
    exact Subtree.refl _

theorem subtree_node_iff (a : GoStr) (s d : Option ProtosList) (cs : List SubGraph)
    (t : SubGraph) :
    Subtree (SubGraph.node a s d cs) t ↔
      (t = SubGraph.node a s d cs ∨ ∃ c ∈ cs, Subtree c t) := by
  constructor
  · intro h
    cases h with
    | refl => exact Or.inl rfl
    | child _ _ _ _ c _ hc hsub => exact Or.inr ⟨c, hc, hsub⟩
  · rintro (rfl | ⟨c, hc, hsub⟩)
    · exact Subtree.refl _
    · exact Subtree.child a s d cs c t hc hsub

theorem subtree_trans {sg t u : SubGraph} (h1 : Subtree sg t) (h2 : Subtree t u) :
    Subtree sg u := by
  induction h1 with
  | refl => exact h2
  | child a s d cs c t hc _ ih => exact Subtree.child a s d cs c u hc (ih h2)

theorem SubGraph.myInduction (P : SubGraph → Prop) (h0 : P SubGraph.null)
    (h1 : ∀ a s d cs, (∀ c ∈ cs, P c) → P (SubGraph.node a s d cs)) :
    ∀ sg, P sg
  | SubGraph.null => h0
  | SubGraph.node a s d cs =>
      h1 a s d cs (fun c _ => SubGraph.myInduction P h0 h1 c)

theorem AssertSorted_ok_iff_subtrees : ∀ sg : SubGraph,
    AssertSorted sg = Except.ok () ↔ ∀ t, Subtree sg t → ¬ nodeBad t := by
  intro sg
  induction sg using SubGraph.myInduction with
  | h0 =>
    simp only [AssertSorted, true_iff]
    intro t ht
    rw [subtree_null_iff] at ht
    subst ht
    simp [nodeBad]
  | h1 a s d cs ih =>
    rw [AssertSorted_node_ok_iff, AssertSortedChildren_ok_iff]
    constructor
    · rintro ⟨hs, hd, hcs⟩ t ht
      rw [subtree_node_iff] at ht
      rcases ht with rfl | ⟨c, hc, hsub⟩
      · rw [AssertUidListSorted_ok_iff] at hs hd
        simp only [nodeBad, not_or, not_hasNonIncPair_iff]
        exact ⟨hs, hd⟩
      · exact ((ih c hc).mp (hcs c hc)) t hsub
    · intro hall
      have hroot := hall _ (Subtree.refl _)
      simp only [nodeBad, not_or, not_hasNonIncPair_iff] at hroot
      refine ⟨(AssertUidListSorted_ok_iff s _).mpr hroot.1,
              (AssertUidListSorted_ok_iff d _).mpr hroot.2, ?_⟩
      intro c hc
      exact (ih c hc).mpr (fun t ht =>
        hall t (Subtree.child a s d cs c t hc ht))

/-- Claim C1: the validator reports a violation if and only if some node of
the tree (the root or any descendant, at any depth) has an adjacent
non-increasing or duplicate pair in its source or destination identifier
list; and on a tree whose every node's lists are strictly increasing,
validation succeeds for the whole tree and for every subtree
independently. -/
theorem spec_C1 (sg : SubGraph) :
    ((∃ e, AssertSorted sg = Except.error e) ↔ ∃ t, Subtree sg t ∧ nodeBad t)
    ∧ ((∀ t, Subtree sg t → ¬ nodeBad t) →
        ∀ t, Subtree sg t → AssertSorted t = Except.ok ()) := by
  constructor
  · rw [← not_iff_not]
    push_neg
    constructor
    · intro h t ht
      have hok : AssertSorted sg = Except.ok () := by
        cases hres : AssertSorted sg with
        | ok u => cases u; rfl
        | error e => exact absurd hres (h e)
      exact (AssertSorted_ok_iff_subtrees sg).mp hok t ht
    · intro hall e he
      have hok := (AssertSorted_ok_iff_subtrees sg).mpr hall
      rw [hok] at he
      cases he
  · intro hall t ht
    exact (AssertSorted_ok_iff_subtrees t).mpr
      (fun u hu => hall u (subtree_trans ht hu))

/-- Concrete instantiation of `spec_C1` at the spec's violation example:
the nested child's reversed destIds list makes validation of the whole tree
fail. -/
theorem spec_C1_witness : ∃ e, AssertSorted exTreeBad = Except.error e :=
  (spec_C1 exTreeBad).1.mpr
    ⟨SubGraph.node (str "thread") (some ⟨[2, 4]⟩) (some ⟨[11, 10]⟩) [],
     Subtree.child _ _ _ _ _ _ (by simp) (Subtree.refl _),
     Or.inr ⟨0, by decide, by decide⟩⟩

/-- Claim C2 counterexample: on the source list [5,3] the only violating
adjacent index is 0, yet the message the check produces is exactly
"src uid list not sorted: [5 3]", which contains no character 0 at all, so
the failure message does not name the violating index. -/
theorem spec_C2_cex :
    AssertUidListSorted (some ⟨[5, 3]⟩) (str "src uid")
        = Except.error (str "src uid list not sorted: [5 3]")
    ∧ '0' ∉ str "src uid list not sorted: [5 3]" := by
  decide

/-- Claim C2 (amended): when the validator detects the first adjacent pair
violating strict monotonicity, the failure message names the list kind (the
fixed tag it was invoked under, "src uid" for sourceIds or "dest uid" for
destIds) and the full contents of the offending list, but not the violating
index: the message is always the tag, the fixed phrase, and the rendered
full list. -/
theorem spec_C2 (pl : Option ProtosList) (msg e : GoStr)
    (h : AssertUidListSorted pl msg = Except.error e) :
    e = msg ++ str " list not sorted: " ++ fmtUids (GetUids pl) :=
  AssertUidListSorted_error_msg pl msg e h

/-- Concrete instantiation of `spec_C2` at the bad source list [5,3] under
the "src uid" tag. -/
theorem spec_C2_witness :
    str "src uid list not sorted: [5 3]"
      = str "src uid" ++ str " list not sorted: " ++ fmtUids (GetUids (some ⟨[5, 3]⟩)) :=
  spec_C2 (some ⟨[5, 3]⟩) (str "src uid") (str "src uid list not sorted: [5 3]") (by decide)

/-- Claim C4: vacuous inputs never trigger a violation — validating a nil
tree succeeds immediately, and an identifier list of length 0 or 1 (a nil
pointer, an empty list, or a singleton) always passes the per-list check,
under either tag and wherever it occurs. -/
theorem spec_C4 :
    AssertSorted SubGraph.null = Except.ok ()
    ∧ (∀ msg, AssertUidListSorted none msg = Except.ok ())
    ∧ (∀ msg, AssertUidListSorted (some ⟨[]⟩) msg = Except.ok ())
    ∧ (∀ u msg, AssertUidListSorted (some ⟨[u]⟩) msg = Except.ok ()) :=
  ⟨rfl, fun _ => rfl, fun _ => rfl, fun _ _ => rfl⟩

/-- Claim C7 counterexample: dumping a nil tree is not a successful no-op:
the dump of a nil tree has no well-defined output (the first field read
dereferences a nil pointer), rather than succeeding with empty output. -/
theorem spec_C7_cex :
    DebugSubgraph SubGraph.null (str "") = none
    ∧ DebugSubgraph SubGraph.null (str "") ≠ some [] := by
  decide

/-- Claim C7 (amended): calling the dumper on an absent tree fails (a nil
dereference before any output) for every indentation prefix; unlike the
validator, the dumper has no nil check. -/
theorem spec_C7 (indent : GoStr) : DebugSubgraph SubGraph.null indent = none := rfl

/-- Claim C9: on a nil identifier-list pointer the validator's per-list
check performs zero comparisons and succeeds: the loop bound is the nil-safe
accessor's empty slice, so the element reads of the loop body are never
reached. -/
theorem spec_C9 (msg : GoStr) :
    GetUids none = []
    ∧ AssertUidListSortedComparisons none = 0
    ∧ AssertUidListSorted none msg = Except.ok () :=
  ⟨rfl, rfl, rfl⟩

theorem DebugChildren_dumpSpec : ∀ (cs : List SubGraph) (i : Nat) (ind : GoStr),
    (∀ c ∈ cs, ∀ ind2, noNull c = true → DebugSubgraph c ind2 = some (dumpSpec c ind2)) →
    noNullList cs = true →
    DebugChildren cs i ind = some (dumpSpecChildren cs i ind)
  | [], _, _, _, _ => rfl
  | c :: cs, i, ind, hIH, hnn => by
      rw [noNullList, Bool.and_eq_true] at hnn
      have h1 := hIH c (List.mem_cons_self c cs) (ind ++ str "    ") hnn.1
      have h2 := DebugChildren_dumpSpec cs (i + 1) ind
        (fun x hx => hIH x (List.mem_cons_of_mem c hx)) hnn.2
      rw [DebugChildren, h1, h2, dumpSpecChildren]

theorem DebugSubgraph_dumpSpec : ∀ sg : SubGraph, ∀ ind : GoStr, noNull sg = true →
    DebugSubgraph sg ind = some (dumpSpec sg ind) := by
  intro sg
  induction sg using SubGraph.myInduction with
  | h0 =>
    intro ind h
    simp [noNull] at h
  | h1 a s d cs ih =>
    intro ind hnn
    rw [noNull] at hnn
    rw [DebugSubgraph, DebugChildren_dumpSpec cs 0 ind ih hnn, dumpSpec]

/-- Claim C3: for every non-absent tree within the spec's data model (all
child references non-absent as well) and every indentation prefix, the dump
emits exactly the `Attr=` line with the quoted label, the `  SrcUids=` line
with the full source list, and then, per child in stored order, a zero-based
`  Child=<index>` line followed by that child's recursive dump at four
additional spaces of indentation — the lines `dumpSpec` spells out. -/
theorem spec_C3 (sg : SubGraph) (ind : GoStr) (h : noNull sg = true) :
    DebugSubgraph sg ind = some (dumpSpec sg ind) :=
  DebugSubgraph_dumpSpec sg ind h

/-- Concrete instantiation of `spec_C3` at the spec's example tree, together
with the explicit five lines the spec displays for it. -/
theorem spec_C3_witness :
    noNull exTree = true
    ∧ DebugSubgraph exTree (str "") = some (dumpSpec exTree (str ""))
    ∧ dumpSpec exTree (str "")
        = [str "Attr=\"forum\"", str "  SrcUids=[1 5 9]", str "  Child=0",
           str "    Attr=\"thread\"", str "      SrcUids=[2 4]"] :=
  ⟨by decide, spec_C3 exTree (str "") (by decide), by decide⟩

theorem DebugChildren_eraseDest : ∀ (cs : List SubGraph) (i : Nat) (ind : GoStr),
    (∀ c ∈ cs, ∀ ind2, DebugSubgraph (eraseDest c) ind2 = DebugSubgraph c ind2) →
    DebugChildren (eraseDestList cs) i ind = DebugChildren cs i ind
  | [], _, _, _ => rfl
  | c :: cs, i, ind, hIH => by
      simp only [eraseDestList, DebugChildren]
      rw [hIH c (List.mem_cons_self c cs) (ind ++ str "    "),
        DebugChildren_eraseDest cs (i + 1) ind
          (fun x hx => hIH x (List.mem_cons_of_mem c hx))]

theorem DebugSubgraph_eraseDest : ∀ sg : SubGraph, ∀ ind : GoStr,
    DebugSubgraph (eraseDest sg) ind = DebugSubgraph sg ind := by
  intro sg
  induction sg using SubGraph.myInduction with
  | h0 => intro ind; rfl
  | h1 a s d cs ih =>
    intro ind
    simp only [eraseDest, DebugSubgraph]
    rw [DebugChildren_eraseDest cs 0 ind ih]

/-- Claim C6: the dump output is independent of the destination identifier
lists: any two trees that agree after erasing every node's destIds (that is,
trees identical except in destIds) produce identical dumps, since the dumper
renders only the label, the source list and the child structure. -/
theorem spec_C6 (sg1 sg2 : SubGraph) (h : eraseDest sg1 = eraseDest sg2) (ind : GoStr) :
    DebugSubgraph sg1 ind = DebugSubgraph sg2 ind := by
  rw [← DebugSubgraph_eraseDest sg1 ind, h, DebugSubgraph_eraseDest sg2 ind]

/-- Concrete instantiation of `spec_C6`: two nodes differing only in their
destIds (one unsorted, one absent) dump identically. -/
theorem spec_C6_witness :
    DebugSubgraph (SubGraph.node (str "a") (some ⟨[1, 2]⟩) (some ⟨[9, 3]⟩) []) (str "")
      = DebugSubgraph (SubGraph.node (str "a") (some ⟨[1, 2]⟩) none []) (str "") :=
  spec_C6 _ _ rfl (str "")

theorem AssertSortedChildrenSt_spec : ∀ cs : List SubGraph,
    (∀ c ∈ cs, AssertSortedSt c = (AssertSorted c, c)) →
    AssertSortedChildrenSt cs = (AssertSortedChildren cs, cs)
  | [], _ => rfl
  | c :: cs, hIH => by
      have h1 := hIH c (List.mem_cons_self c cs)
      have h2 := AssertSortedChildrenSt_spec cs (fun x hx => hIH x (List.mem_cons_of_mem c hx))
      rw [AssertSortedChildrenSt, AssertSortedChildren, h1, h2]
      cases hc : AssertSorted c with
      | error e => rfl
      | ok u => cases u; rfl

theorem AssertSortedSt_spec : ∀ sg : SubGraph, AssertSortedSt sg = (AssertSorted sg, sg) := by
  intro sg
  induction sg using SubGraph.myInduction with
  | h0 => rfl
  | h1 a s d cs ih =>
    rw [AssertSortedSt, AssertSorted, AssertSortedChildrenSt_spec cs ih]
    cases hs : AssertUidListSorted s (str "src uid") with
    | error e => rfl
    | ok u =>
      cases u
      cases hd : AssertUidListSorted d (str "dest uid") with
      | error e => rfl
      | ok v => cases v; rfl

theorem DebugChildrenSt_spec : ∀ (cs : List SubGraph) (i : Nat) (ind : GoStr),
    (∀ c ∈ cs, ∀ ind2, DebugSubgraphSt c ind2 = (DebugSubgraph c ind2, c)) →
    DebugChildrenSt cs i ind = (DebugChildren cs i ind, cs)
  | [], _, _, _ => rfl
  | c :: cs, i, ind, hIH => by
      have h1 := hIH c (List.mem_cons_self c cs) (ind ++ str "    ")
      have h2 := DebugChildrenSt_spec cs (i + 1) ind
        (fun x hx => hIH x (List.mem_cons_of_mem c hx))
      rw [DebugChildrenSt, DebugChildren, h1, h2]
      cases hc : DebugSubgraph c (ind ++ str "    ") with
      | none => rfl
      | some sub =>
        cases hr : DebugChildren cs (i + 1) ind with
        | none => rfl
        | some rest => rfl

theorem DebugSubgraphSt_spec : ∀ sg : SubGraph, ∀ ind : GoStr,
    DebugSubgraphSt sg ind = (DebugSubgraph sg ind, sg) := by
  intro sg
  induction sg using SubGraph.myInduction with
  | h0 => intro ind; rfl
  | h1 a s d cs ih =>
    intro ind
    rw [DebugSubgraphSt, DebugSubgraph, DebugChildrenSt_spec cs 0 ind ih]
    cases hr : DebugChildren cs 0 ind with
    | none => rfl
    | some rest => rfl

/-- Claim C8: neither the validator nor the dumper mutates the tree: the
traversals with the tree threaded through as explicit state return every
node reachable from the input (labels, identifier lists, children and their
order) unchanged, and produce the same results as the pure passes. -/
theorem spec_C8 (sg : SubGraph) (ind : GoStr) :
    AssertSortedSt sg = (AssertSorted sg, sg)
    ∧ DebugSubgraphSt sg ind = (DebugSubgraph sg ind, sg) :=
  ⟨AssertSortedSt_spec sg, DebugSubgraphSt_spec sg ind⟩

theorem sizeN_pos : ∀ sg : SubGraph, 1 ≤ sizeN sg
  | SubGraph.null => Nat.le_refl 1
  | SubGraph.node _ _ _ cs => by rw [sizeN]; omega

theorem sizeListN_pos : ∀ cs : List SubGraph, 1 ≤ sizeListN cs
  | [] => Nat.le_refl 1
  | c :: cs => by rw [sizeListN]; omega

theorem AssertSortedChildrenFuel_adequate : ∀ (cs : List SubGraph) (n : Nat),
    (∀ c ∈ cs, ∀ k, sizeN c ≤ k → AssertSortedFuel k c = some (AssertSorted c)) →
    sizeListN cs ≤ n →
    AssertSortedChildrenFuel n cs = some (AssertSortedChildren cs)
  | [], n, _, hn => by
      rw [sizeListN] at hn
      obtain ⟨m, rfl⟩ : ∃ m, n = m + 1 := ⟨n - 1, by omega⟩
      rfl
  | c :: cs, n, hIH, hn => by
      rw [sizeListN] at hn
      have hc := sizeN_pos c
      have hcs := sizeListN_pos cs
      obtain ⟨m, rfl⟩ : ∃ m, n = m + 1 := ⟨n - 1, by omega⟩
      rw [AssertSortedChildrenFuel, hIH c (List.mem_cons_self c cs) m (by omega),
        AssertSortedChildrenFuel_adequate cs m
          (fun x hx => hIH x (List.mem_cons_of_mem c hx)) (by omega),
        AssertSortedChildren]
      cases hAc : AssertSorted c with
      | error e => rfl
      | ok u => cases u; rfl

theorem AssertSortedFuel_adequate : ∀ sg : SubGraph, ∀ n : Nat, sizeN sg ≤ n →
    AssertSortedFuel n sg = some (AssertSorted sg) := by
  intro sg
  induction sg using SubGraph.myInduction with
  | h0 =>
    intro n hn
    rw [sizeN] at hn
    obtain ⟨m, rfl⟩ : ∃ m, n = m + 1 := ⟨n - 1, by omega⟩
    rfl
  | h1 a s d cs ih =>
    intro n hn
    rw [sizeN] at hn
    have hcs := sizeListN_pos cs
    obtain ⟨m, rfl⟩ : ∃ m, n = m + 1 := ⟨n - 1, by omega⟩
    rw [AssertSortedFuel, AssertSorted,
      AssertSortedChildrenFuel_adequate cs m ih (by omega)]
    cases hs : AssertUidListSorted s (str "src uid") with
    | error e => rfl
    | ok u =>
      cases u
      cases hd : AssertUidListSorted d (str "dest uid") with
      | error e => rfl
      | ok v => cases v; rfl

theorem DebugChildrenFuel_adequate : ∀ (cs : List SubGraph) (n i : Nat) (ind : GoStr),
    (∀ c ∈ cs, ∀ k ind2, sizeN c ≤ k →
      DebugSubgraphFuel k c ind2 = some (DebugSubgraph c ind2)) →
    sizeListN cs ≤ n →
    DebugChildrenFuel n cs i ind = some (DebugChildren cs i ind)
  | [], n, _, _, _, hn => by
      rw [sizeListN] at hn
      obtain ⟨m, rfl⟩ : ∃ m, n = m + 1 := ⟨n - 1, by omega⟩
      rfl
  | c :: cs, n, i, ind, hIH, hn => by
      rw [sizeListN] at hn
      have hc := sizeN_pos c
      have hcs := sizeListN_pos cs
      obtain ⟨m, rfl⟩ : ∃ m, n = m + 1 := ⟨n - 1, by omega⟩
      rw [DebugChildrenFuel,
        hIH c (List.mem_cons_self c cs) m (ind ++ str "    ") (by omega),
        DebugChildrenFuel_adequate cs m (i + 1) ind
          (fun x hx => hIH x (List.mem_cons_of_mem c hx)) (by omega),
        DebugChildren]
      cases hsub : DebugSubgraph c (ind ++ str "    ") with
      | none => rfl
      | some sub =>
        cases hrest : DebugChildren cs (i + 1) ind with
        | none => rfl
        | some rest => rfl

theorem DebugSubgraphFuel_adequate : ∀ sg : SubGraph, ∀ (n : Nat) (ind : GoStr),
    sizeN sg ≤ n → DebugSubgraphFuel n sg ind = some (DebugSubgraph sg ind) := by
  intro sg
  induction sg using SubGraph.myInduction with
  | h0 =>
    intro n ind hn
    rw [sizeN] at hn
    obtain ⟨m, rfl⟩ : ∃ m, n = m + 1 := ⟨n - 1, by omega⟩
    rfl
  | h1 a s d cs ih =>
    intro n ind hn
    rw [sizeN] at hn
    have hcs := sizeListN_pos cs
    obtain ⟨m, rfl⟩ : ∃ m, n = m + 1 := ⟨n - 1, by omega⟩
    rw [DebugSubgraphFuel, DebugSubgraph,
      DebugChildrenFuel_adequate cs m 0 ind ih (by omega)]
    cases hr : DebugChildren cs 0 ind with
    | none => rfl
    | some rest => rfl

theorem AssertSortedChildrenVisits_spec : ∀ cs : List SubGraph,
    (∀ c ∈ cs, (AssertSortedVisits c).1 = AssertSorted c
        ∧ (AssertSorted c = Except.ok () → (AssertSortedVisits c).2 = nodeRefs c)) →
    (AssertSortedChildrenVisits cs).1 = AssertSortedChildren cs
    ∧ (AssertSortedChildren cs = Except.ok () →
        (AssertSortedChildrenVisits cs).2 = nodeRefsList cs)
  | [], _ => ⟨rfl, fun _ => rfl⟩
  | c :: cs, hIH => by
      obtain ⟨h1, h2⟩ := hIH c (List.mem_cons_self c cs)
      obtain ⟨h3, h4⟩ := AssertSortedChildrenVisits_spec cs
        (fun x hx => hIH x (List.mem_cons_of_mem c hx))
      rw [AssertSortedChildrenVisits, AssertSortedChildren, nodeRefsList]
      rw [show AssertSortedVisits c = (AssertSorted c, (AssertSortedVisits c).2) from by
        rw [← h1]]
      rw [show AssertSortedChildrenVisits cs
          = (AssertSortedChildren cs, (AssertSortedChildrenVisits cs).2) from by rw [← h3]]
      cases hc : AssertSorted c with
      | error e => exact ⟨rfl, fun hcon => nomatch hcon⟩
      | ok u =>
        cases u
        cases hcs : AssertSortedChildren cs with
        | error e => exact ⟨rfl, fun hcon => nomatch hcon⟩
        | ok w =>
          cases w
          exact ⟨rfl, fun _ => by rw [h2 hc, h4 hcs]⟩

theorem AssertSortedVisits_spec : ∀ sg : SubGraph,
    (AssertSortedVisits sg).1 = AssertSorted sg
    ∧ (AssertSorted sg = Except.ok () → (AssertSortedVisits sg).2 = nodeRefs sg) := by
  intro sg
  induction sg using SubGraph.myInduction with
  | h0 => exact ⟨rfl, fun _ => rfl⟩
  | h1 a s d cs ih =>
    obtain ⟨h3, h4⟩ := AssertSortedChildrenVisits_spec cs ih
    rw [AssertSortedVisits, AssertSorted, nodeRefs]
    cases hs : AssertUidListSorted s (str "src uid") with
    | error e => exact ⟨rfl, fun hcon => nomatch hcon⟩
    | ok u =>
      cases u
      cases hd : AssertUidListSorted d (str "dest uid") with
      | error e => exact ⟨rfl, fun hcon => nomatch hcon⟩
      | ok v =>
        cases v
        rw [show AssertSortedChildrenVisits cs
            = (AssertSortedChildren cs, (AssertSortedChildrenVisits cs).2) from by rw [← h3]]
        cases hcs : AssertSortedChildren cs with
        | error e => exact ⟨rfl, fun hcon => nomatch hcon⟩
        | ok w =>
          cases w
          exact ⟨rfl, fun _ => by rw [h4 hcs]⟩

/-- Claim C10: both passes terminate on every finite tree: under an explicit
fuel discipline, any recursion budget of at least the tree's size reproduces
the unfuelled pass exactly (each recursive call descends only into an
immediate child, so the structural size bounds the recursion); and a
successful validation visits each reachable tree reference exactly once. -/
theorem spec_C10 (sg : SubGraph) (n : Nat) (ind : GoStr) (h : sizeN sg ≤ n) :
    AssertSortedFuel n sg = some (AssertSorted sg)
    ∧ DebugSubgraphFuel n sg ind = some (DebugSubgraph sg ind)
    ∧ (AssertSortedVisits sg).1 = AssertSorted sg
    ∧ (AssertSorted sg = Except.ok () → (AssertSortedVisits sg).2 = nodeRefs sg) :=
  ⟨AssertSortedFuel_adequate sg n h, DebugSubgraphFuel_adequate sg n ind h,
   (AssertSortedVisits_spec sg).1, (AssertSortedVisits_spec sg).2⟩

/-- Concrete instantiation of `spec_C10` at the spec's example tree with
fuel 9 (its size is 5). -/
theorem spec_C10_witness :
    AssertSortedFuel 9 exTree = some (AssertSorted exTree)
    ∧ DebugSubgraphFuel 9 exTree (str "") = some (DebugSubgraph exTree (str ""))
    ∧ (AssertSortedVisits exTree).1 = AssertSorted exTree
    ∧ (AssertSorted exTree = Except.ok () → (AssertSortedVisits exTree).2 = nodeRefs exTree) :=
  spec_C10 exTree 9 (str "") (by decide)

theorem DebugSubgraph_node_inv (a : GoStr) (s d : Option ProtosList) (cs : List SubGraph)
    (ind : GoStr) (out : List GoStr)
    (h : DebugSubgraph (SubGraph.node a s d cs) ind = some out) :
    ∃ rest, DebugChildren cs 0 ind = some rest
      ∧ out = (ind ++ str "Attr=" ++ goQuote a)
          :: (ind ++ str "  SrcUids=" ++ fmtPListPtr s) :: rest := by
  rw [DebugSubgraph] at h
  cases hr : DebugChildren cs 0 ind with
  | none => rw [hr] at h; exact nomatch h
  | some rest =>
    rw [hr] at h
    exact ⟨rest, rfl, (Option.some.inj h).symm⟩

theorem DebugChildren_cons_inv (c : SubGraph) (cs : List SubGraph) (i : Nat) (ind : GoStr)
    (out : List GoStr) (h : DebugChildren (c :: cs) i ind = some out) :
    ∃ sub rest, DebugSubgraph c (ind ++ str "    ") = some sub
      ∧ DebugChildren cs (i + 1) ind = some rest
      ∧ out = ((ind ++ str "  Child=" ++ (Nat.repr i).data) :: sub) ++ rest := by
  rw [DebugChildren] at h
  cases hsub : DebugSubgraph c (ind ++ str "    ") with
  | none => rw [hsub] at h; exact nomatch h
  | some sub =>
    rw [hsub] at h
    cases hrest : DebugChildren cs (i + 1) ind with
    | none => rw [hrest] at h; exact nomatch h
    | some rest =>
      rw [hrest] at h
      exact ⟨sub, rest, rfl, rfl, (Option.some.inj h).symm⟩

theorem DebugChildren_lines_pref :
    ∀ (cs : List SubGraph) (i : Nat) (ind : GoStr) (out : List GoStr),
    (∀ c ∈ cs, ∀ ind2 out2, DebugSubgraph c ind2 = some out2 → ∀ l ∈ out2, ind2 <+: l) →
    DebugChildren cs i ind = some out → ∀ l ∈ out, ind <+: l
  | [], _, _, out, _, h => by
      cases h
      intro l hl
      cases hl
  | c :: cs, i, ind, out, hIH, h => by
      obtain ⟨sub, rest, hsub, hrest, rfl⟩ := DebugChildren_cons_inv c cs i ind out h
      intro l hl
      rcases List.mem_append.mp hl with hl1 | hl2
      · rcases List.mem_cons.mp hl1 with rfl | hl3
        · rw [List.append_assoc]
          exact pref_left ind _
        · have hp := hIH c (List.mem_cons_self c cs) (ind ++ str "    ") sub hsub l hl3
          exact (pref_left ind (str "    ")).trans hp
      · exact DebugChildren_lines_pref cs (i + 1) ind rest
          (fun x hx => hIH x (List.mem_cons_of_mem c hx)) hrest l hl2

theorem DebugSubgraph_lines_pref : ∀ (sg : SubGraph) (ind : GoStr) (out : List GoStr),
    DebugSubgraph sg ind = some out → ∀ l ∈ out, ind <+: l := by
  intro sg
  induction sg using SubGraph.myInduction with
  | h0 => intro ind out h; exact nomatch h
  | h1 a s d cs ih =>
    intro ind out h
    obtain ⟨rest, hr, rfl⟩ := DebugSubgraph_node_inv a s d cs ind out h
    intro l hl
    rcases List.mem_cons.mp hl with rfl | hl2
    · rw [List.append_assoc]
      exact pref_left ind _
    · rcases List.mem_cons.mp hl2 with rfl | hl3
      · rw [List.append_assoc]
        exact pref_left ind _
      · exact DebugChildren_lines_pref cs 0 ind rest ih hr l hl3

theorem childTag_not_pref_deeper {ind l : GoStr} (h : (ind ++ str "    ") <+: l) :
    ¬ ((ind ++ str "  Child=") <+: l) := by
  intro hc
  rcases pref_comparable hc h with h1 | h1 <;>
    rw [pref_cancel ind] at h1 <;> revert h1 <;> decide

theorem childTag_not_pref_tail {ind : GoStr} (x tail : GoStr)
    (h1 : ¬ (str "  Child=" <+: x)) (h2 : ¬ (x <+: str "  Child=")) :
    ¬ ((ind ++ str "  Child=") <+: ind ++ (x ++ tail)) := by
  intro hc
  rw [pref_cancel ind] at hc
  rcases pref_comparable hc (pref_left x tail) with h | h
  · exact h1 h
  · exact h2 h

theorem DebugChildren_count :
    ∀ (cs : List SubGraph) (i : Nat) (ind : GoStr) (out : List GoStr),
    DebugChildren cs i ind = some out →
    out.countP (fun l => decide ((ind ++ str "  Child=") <+: l)) = cs.length
  | [], _, _, out, h => by cases h; rfl
  | c :: cs, i, ind, out, h => by
      obtain ⟨sub, rest, hsub, hrest, rfl⟩ := DebugChildren_cons_inv c cs i ind out h
      have hcount := DebugChildren_count cs (i + 1) ind rest hrest
      have hchild : (ind ++ str "  Child=") <+: (ind ++ str "  Child=" ++ (Nat.repr i).data) :=
        pref_left _ _
      have hsub0 : (List.countP (fun l => decide ((ind ++ str "  Child=") <+: l)) sub) = 0 := by
        rw [List.countP_eq_zero]
        intro l hl
        have hp := DebugSubgraph_lines_pref c (ind ++ str "    ") sub hsub l hl
        simp only [decide_eq_true_eq]
        exact childTag_not_pref_deeper hp
      rw [List.countP_append, List.countP_cons, hcount, hsub0, List.length_cons]
      simp [hchild]
      omega

/-- Claim C5: the dumper is deterministic — its output is a function of the
tree and the indentation prefix alone (the pure traversal uses no unordered
structure) — every emitted line extends the given indentation prefix
(children are dumped at the prefix extended by the fixed four-space unit, so
indentation grows by one unit per depth level), and the number of lines
tagged `Child=` at the node's own indentation equals the node's child count,
emitted in stored order. -/
theorem spec_C5 (a : GoStr) (s d : Option ProtosList) (cs : List SubGraph) (ind : GoStr) :
    DebugSubgraph (SubGraph.node a s d cs) ind = DebugSubgraph (SubGraph.node a s d cs) ind
    ∧ ∀ out, DebugSubgraph (SubGraph.node a s d cs) ind = some out →
        ((∀ l ∈ out, ind <+: l)
         ∧ out.countP (fun l => decide ((ind ++ str "  Child=") <+: l)) = cs.length) := by
  refine ⟨rfl, fun out h => ⟨DebugSubgraph_lines_pref _ ind out h, ?_⟩⟩
  obtain ⟨rest, hr, rfl⟩ := DebugSubgraph_node_inv a s d cs ind out h
  have hattr : ¬ ((ind ++ str "  Child=") <+: ind ++ (str "Attr=" ++ goQuote a)) :=
    childTag_not_pref_tail (str "Attr=") (goQuote a) (by decide) (by decide)
  have hsrc : ¬ ((ind ++ str "  Child=") <+: ind ++ (str "  SrcUids=" ++ fmtPListPtr s)) :=
    childTag_not_pref_tail (str "  SrcUids=") (fmtPListPtr s) (by decide) (by decide)
  rw [List.countP_cons, List.countP_cons, DebugChildren_count cs 0 ind rest hr]
  simp only [List.append_assoc] at *
  simp [hattr, hsrc]

/-- Concrete instantiation of `spec_C5` at the spec's example: the dump of
the `forum` node at the empty prefix contains exactly one line tagged
`Child=`, matching its single child. -/
theorem spec_C5_witness :
    List.countP (fun l => decide ((str "" ++ str "  Child=") <+: l))
      [str "Attr=\"forum\"", str "  SrcUids=[1 5 9]", str "  Child=0",
       str "    Attr=\"thread\"", str "      SrcUids=[2 4]"]
      = List.length [SubGraph.node (str "thread") (some ⟨[2, 4]⟩) (some ⟨[10, 11]⟩) []] :=
  ((spec_C5 (str "forum") (some ⟨[1, 5, 9]⟩) none
      [SubGraph.node (str "thread") (some ⟨[2, 4]⟩) (some ⟨[10, 11]⟩) []] (str "")).2
    _ (by decide)).2
